import Mathlib

/-!
Verification of the skill execution and state-synchronization core of
haiku.skills against its specification.  The Python functions under
src/haiku/skills are shallowly embedded as executable Lean definitions
(strings are modelled over their character lists, machine behaviour such
as subprocess capture or filesystem resolution is passed in as explicit
data), and the theorems at the end of the file settle the specification
claims against those definitions.
-/

namespace HaikuSkills

/-! ## Python string primitives, modelled over ASCII -/

/-- Contiguous-substring test on character lists; models the Python
`in` operator on strings. -/
def listContainsSub (l sub : List Char) : Bool :=
  match l with
  | [] => sub.isEmpty
  | c :: rest => sub.isPrefixOf (c :: rest) || listContainsSub rest sub

/-- Substring test on strings (Python `sub in s`). -/
def strContains (s sub : String) : Bool :=
  listContainsSub s.data sub.data

theorem listContainsSub_here (sub b : List Char) :
    listContainsSub (sub ++ b) sub = true := by
  cases sub with
  | nil => cases b <;> simp [listContainsSub, List.isPrefixOf]
  | cons c rest =>
      show listContainsSub (c :: (rest ++ b)) (c :: rest) = true
      simp only [listContainsSub, Bool.or_eq_true]
      left
      rw [List.isPrefixOf_iff_prefix]
      exact List.prefix_append (c :: rest) b

theorem listContainsSub_append (a sub b : List Char) :
    listContainsSub (a ++ sub ++ b) sub = true := by
  induction a with
  | nil => simpa using listContainsSub_here sub b
  | cons x xs ih =>
      show listContainsSub (x :: (xs ++ sub ++ b)) sub = true
      simp only [listContainsSub, Bool.or_eq_true]
      right
      exact ih

/-- Containment of a middle piece in a three-part string concatenation. -/
theorem strContains_append (a sub b : String) :
    strContains (a ++ sub ++ b) sub = true := by
  unfold strContains
  rw [String.data_append, String.data_append]
  exact listContainsSub_append a.data sub.data b.data

/-- Python `str.strip()`: drop whitespace from both ends. -/
def pyStrip (s : String) : String :=
  String.mk (((s.data.dropWhile Char.isWhitespace).reverse.dropWhile
    Char.isWhitespace).reverse)

/-- Cut a character list at every character satisfying the breaking rule
used, keeping empty pieces. -/
def splitCharsAux (brk : Char → Bool) (cur : List Char) :
    List Char → List (List Char)
  | [] => [cur.reverse]
  | c :: rest =>
      if brk c then cur.reverse :: splitCharsAux brk [] rest
      else splitCharsAux brk (c :: cur) rest

/-- Python `str.split()` with no argument: split on whitespace runs,
discarding empty pieces. -/
def pySplit (s : String) : List String :=
  ((splitCharsAux Char.isWhitespace [] s.data).map String.mk).filter
    (fun piece => piece != "")

/-- Python `str.startswith(pre)`. -/
def strStarts (s pre : String) : Bool :=
  pre.data.isPrefixOf s.data

theorem strStarts_append (pre rest : String) :
    strStarts (pre ++ rest) pre = true := by
  unfold strStarts
  rw [String.data_append, List.isPrefixOf_iff_prefix]
  exact List.prefix_append _ _

theorem strContains_tail (a sub : String) :
    strContains (a ++ sub) sub = true := by
  unfold strContains
  rw [String.data_append]
  have := listContainsSub_append a.data sub.data []
  simpa using this

theorem strContains_empty (s : String) : strContains s "" = true := by
  unfold strContains
  show listContainsSub s.data [] = true
  cases s.data <;> simp [listContainsSub, List.isPrefixOf]

/-- Python `x or y` on strings: `y` when `x` is empty (falsy), else `x`. -/
def pyOrStr (a b : String) : String :=
  if a = "" then b else a

/-! ## Skill name validation (src/haiku/skills/models.py) -/

/-- Python `str.lower` on one character, over ASCII (the embedding models
skill names over ASCII, where the NFKC normalization performed by
`_validate_skill_name` is the identity). -/
def asciiLowerChar (c : Char) : Char :=
  if 'A' ≤ c ∧ c ≤ 'Z' then Char.ofNat (c.toNat + 32) else c

/-- Python `str.lower` over ASCII. -/
def asciiLower (s : String) : String :=
  String.mk (s.data.map asciiLowerChar)

/-- Python `c.isalnum()` restricted to ASCII: a letter or a digit. -/
def pyIsAlnum (c : Char) : Bool :=
  ('a' ≤ c && c ≤ 'z') || ('A' ≤ c && c ≤ 'Z') || ('0' ≤ c && c ≤ '9')

/-- Python `name.startswith("-")`. -/
def headIsHyphen (s : String) : Bool :=
  match s.data with
  | [] => false
  | c :: _ => c == '-'

/-- Python `name.endswith("-")`. -/
def lastIsHyphen (s : String) : Bool :=
  match s.data.getLast? with
  | none => false
  | some c => c == '-'

/-- Python `"--" in name`. -/
def hasDoubleHyphen (s : String) : Bool :=
  strContains s "--"

/-- models.py `_validate_skill_name`: after NFKC normalization (identity on
the modelled ASCII fragment) require lowercase, no leading or trailing
hyphen, no consecutive hyphens, and only alphanumeric-or-hyphen characters;
each violation raises ValueError with the message recorded here. -/
def validate_skill_name (name : String) : Except String String :=
  if name ≠ asciiLower name then
    .error "name must be lowercase"
  else if headIsHyphen name || lastIsHyphen name then
    .error "name must not start or end with a hyphen"
  else if hasDoubleHyphen name then
    .error "name must not contain consecutive hyphens"
  else if ¬ (name.data.all fun c => pyIsAlnum c || c == '-') then
    .error "name must contain only lowercase alphanumeric characters and hyphens"
  else .ok name

/-- The `name` field of `SkillMetadata`: pydantic enforces the
`min_length=1` / `max_length=64` field constraints before the
`_validate_skill_name` field validator runs. -/
def validateNameField (name : String) : Except String String :=
  if name.data.length < 1 then .error "String should have at least 1 character"
  else if 64 < name.data.length then .error "String should have at most 64 characters"
  else validate_skill_name name

/-- A lowercase ASCII letter or an ASCII digit. -/
def isLowerAlnum (c : Char) : Bool :=
  ('a' ≤ c && c ≤ 'z') || ('0' ≤ c && c ≤ '9')

/-- The valid-name shape of the claim: 1 to 64 characters, each a lowercase
alphanumeric or a hyphen, with no leading, trailing or doubled hyphen. -/
def ValidName (name : String) : Prop :=
  name.data ≠ [] ∧ name.data.length ≤ 64 ∧
  (∀ c ∈ name.data, isLowerAlnum c = true ∨ c = '-') ∧
  headIsHyphen name = false ∧ lastIsHyphen name = false ∧
  hasDoubleHyphen name = false

theorem map_eq_self_iff_fixed (f : Char → Char) (l : List Char) :
    l.map f = l ↔ ∀ c ∈ l, f c = c := by
  induction l with
  | nil => simp
  | cons a l ih => simp_all

theorem asciiLowerChar_fixed {c : Char} (h : isLowerAlnum c = true ∨ c = '-') :
    asciiLowerChar c = c := by
  rcases h with h | rfl
  · unfold asciiLowerChar
    rw [if_neg]
    rintro ⟨h1, h2⟩
    have n1 : (65 : Nat) ≤ c.toNat := h1
    have n2 : c.toNat ≤ 90 := h2
    simp only [isLowerAlnum, Bool.or_eq_true, Bool.and_eq_true, decide_eq_true_eq] at h
    rcases h with ⟨ha, _⟩ | ⟨_, hb⟩
    · have : (97 : Nat) ≤ c.toNat := ha
      omega
    · have : c.toNat ≤ 57 := hb
      omega
  · decide

theorem asciiLower_fixed {name : String}
    (h : ∀ c ∈ name.data, isLowerAlnum c = true ∨ c = '-') :
    asciiLower name = name := by
  unfold asciiLower
  have : name.data.map asciiLowerChar = name.data :=
    (map_eq_self_iff_fixed _ _).mpr fun c hc => asciiLowerChar_fixed (h c hc)
  rw [this]

theorem validateNameField_accepts {name : String} (h : ValidName name) :
    validateNameField name = .ok name := by
  obtain ⟨hne, hlen, hchars, hh, hl, hd⟩ := h
  have heq : asciiLower name = name := asciiLower_fixed hchars
  have hall : (name.data.all fun c => pyIsAlnum c || c == '-') = true := by
    rw [List.all_eq_true]
    intro c hc
    rcases hchars c hc with hc' | rfl
    · simp only [pyIsAlnum, isLowerAlnum, Bool.or_eq_true, Bool.and_eq_true] at hc' ⊢
      tauto
    · simp
  have hdl : name.length = name.data.length := rfl
  have hpos := List.length_pos.mpr hne
  have h1 : name.length ≠ 0 := by omega
  have h2 : ¬ (64 < name.length) := by omega
  simp [validateNameField, validate_skill_name, h1, h2, heq, hh, hl, hd, hall]

theorem validateNameField_ok_shape {name s : String}
    (h : validateNameField name = .ok s) :
    s = name ∧ 1 ≤ name.data.length ∧ name.data.length ≤ 64 ∧
    name = asciiLower name ∧ headIsHyphen name = false ∧
    lastIsHyphen name = false ∧ hasDoubleHyphen name = false ∧
    (name.data.all fun c => pyIsAlnum c || c == '-') = true := by
  unfold validateNameField validate_skill_name at h
  split at h
  · exact absurd h (by simp)
  · split at h
    · exact absurd h (by simp)
    · split at h
      · exact absurd h (by simp)
      · split at h
        · exact absurd h (by simp)
        · split at h
          · exact absurd h (by simp)
          · split at h
            · exact absurd h (by simp)
            · rename_i hle hgt hlow hhyp hdbl halnum
              injection h with hns
              simp only [Bool.or_eq_true, not_or] at hhyp
              refine ⟨hns.symm, by omega, by omega, not_ne_iff.mp hlow, ?_, ?_, ?_, ?_⟩
              · simpa using hhyp.1
              · simpa using hhyp.2
              · simpa using hdbl
              · exact not_not.mp halnum

/-! ## allowed-tools parsing (src/haiku/skills/parser.py and models.py) -/

/-- A YAML frontmatter value for the `allowed-tools` key: either a scalar
string or a native list of strings. -/
inductive YamlVal where
  | str (s : String)
  | list (xs : List String)
deriving DecidableEq, Repr

/-- Outcome of a Python expression that may raise AttributeError. -/
inductive PyOutcome (α : Type) where
  | ok (a : α)
  | attributeError (msg : String)
deriving Repr

/-- Python truthiness of the optional `allowed-tools` value: absent and
empty values are falsy, a whitespace-only string is truthy. -/
def pyTruthy : Option YamlVal → Bool
  | none => false
  | some (.str s) => s != ""
  | some (.list xs) => !xs.isEmpty

/-- parser.py line 29, `allowed_tools_raw.split() if allowed_tools_raw
else []`: a truthy raw value is unconditionally given `.split()`, which on
a native (necessarily nonempty) list raises AttributeError. -/
def parse_allowed_tools (raw : Option YamlVal) : PyOutcome (List String) :=
  if pyTruthy raw then
    match raw with
    | some (.str s) => .ok (pySplit s)
    | some (.list _) => .attributeError "'list' object has no attribute 'split'"
    | none => .ok []
  else .ok []

/-- models.py `SkillMetadata.validate_allowed_tools` (a mode="before"
validator): a string is whitespace-split (empty when blank), a list is
passed through. -/
def validate_allowed_tools (v : YamlVal) : List String :=
  match v with
  | .str s => if pyStrip s != "" then pySplit s else []
  | .list xs => xs

/-! ## Resource sandbox (src/haiku/skills/agent.py `_create_read_resource`) -/

/-- Result of Python `Path.read_text()`: text, a UnicodeDecodeError, or any
other I/O exception. -/
inductive ReadOutcome where
  | text (s : String)
  | decodeFailure
  | ioFailure (e : String)
deriving DecidableEq, Repr

/-- The filesystem the tool runs against: `resolve` follows symlinks and
normalizes `..` segments (Python `Path.resolve`), `read` is
`Path.read_text`.  Paths are segment lists. -/
structure FsModel where
  resolve : List String → List String
  read : List String → ReadOutcome

/-- The per-skill data the `read_resource` closure captures. -/
structure SkillFiles where
  root : List String
  resources : List String
deriving DecidableEq, Repr

/-- A Python exception leaving the tool body: a ValueError it raised itself,
or any other exception propagating through it. -/
inductive PyFailure where
  | valueError (msg : String)
  | propagated (e : String)
deriving DecidableEq, Repr

/-- Split a relative path string on `/` into segments. -/
def splitPath (p : String) : List String :=
  (splitCharsAux (fun c => c == '/') [] p.data).map String.mk

/-- agent.py `read_resource`: reject a path not literally declared in the
skill's resources; resolve root/path and reject it unless the resolved root
is a prefix of it; read the file, mapping UnicodeDecodeError to the
distinct not-a-text-file ValueError. -/
def read_resource (fs : FsModel) (sk : SkillFiles) (p : String) :
    Except PyFailure String :=
  if ¬ sk.resources.contains p then
    .error (.valueError ("'" ++ p ++ "' is not an available resource"))
  else if ¬ (fs.resolve sk.root).isPrefixOf (fs.resolve (sk.root ++ splitPath p)) then
    .error (.valueError ("'" ++ p ++ "' is not an available resource"))
  else
    match fs.read (fs.resolve (sk.root ++ splitPath p)) with
    | .text s => .ok s
    | .decodeFailure => .error (.valueError ("'" ++ p ++ "' is not a text file"))
    | .ioFailure e => .error (.propagated e)

/-! ## Script failure reporting (agent.py `run_script`,
script_tools.py `run_script`) -/

/-- Captured outcome of a finished subprocess: exit code and both captured
streams (`stdout=PIPE`, `stderr=PIPE` in both call sites). -/
structure ProcResult where
  returncode : Int
  stdout : String
  stderr : String
deriving DecidableEq, Repr

/-- agent.py `run_script` after `proc.communicate()`: nonzero exit raises
RuntimeError naming the exit code and the stripped stderr, falling back to
the stripped stdout when stderr strips to empty. -/
def run_script_report (script : String) (proc : ProcResult) :
    Except String String :=
  if proc.returncode ≠ 0 then
    .error ("Script " ++ script ++ " failed (exit " ++ toString proc.returncode
      ++ "): " ++ pyOrStr (pyStrip proc.stderr) (pyStrip proc.stdout))
  else .ok proc.stdout

/-- script_tools.py `run_script` (the runner `create_script_tool` builds)
after `proc.communicate()`: nonzero exit raises RuntimeError naming the
exit code and the stripped stderr only — there is no stdout fallback here.
The successful branch's JSON unwrapping of stdout is not modelled beyond
returning the captured stdout. -/
def run_script_tool_report (scriptName : String) (proc : ProcResult) :
    Except String String :=
  if proc.returncode ≠ 0 then
    .error ("Script " ++ scriptName ++ " failed (exit "
      ++ toString proc.returncode ++ "): " ++ pyStrip proc.stderr)
  else .ok proc.stdout

/-! ## Result extraction (agent.py `_last_tool_result`, `_run_skill`) -/

/-- A part of a ModelRequest: a ToolReturnPart (with its rendered content)
or any other part kind. -/
inductive MsgPart where
  | toolReturn (content : String)
  | otherPart
deriving DecidableEq, Repr

/-- A message of the run history: a ModelRequest with parts, or a
ModelResponse with its text. -/
inductive ModelMsg where
  | request (parts : List MsgPart)
  | response (text : String)
deriving DecidableEq, Repr

/-- The content of a part when it is a ToolReturnPart. -/
def partToolReturn : MsgPart → Option String
  | .toolReturn c => some c
  | .otherPart => none

/-- agent.py `_last_tool_result`: scan messages in reverse; within each
ModelRequest scan its parts in reverse; return the first ToolReturnPart
content found, else None. -/
def last_tool_result (messages : List ModelMsg) : Option String :=
  messages.reverse.findSome? fun m =>
    match m with
    | .request parts => parts.reverse.findSome? partToolReturn
    | .response _ => none

/-- Python `x or y` where `x` is an optional string: `None` and `""` are
both falsy. -/
def pyOrOpt (a : Option String) (b : String) : String :=
  match a with
  | some s => if s = "" then b else s
  | none => b

/-- agent.py `_run_skill`: the returned text is
`_last_tool_result(result.all_messages()) or result.output`. -/
def run_skill_text (messages : List ModelMsg) (output : String) : String :=
  pyOrOpt (last_tool_result messages) output

/-! ## State namespace registry (agent.py `_register_skill_state`) -/

/-- A state instance: its Python type (as an identifier) and its identity
(allocation number), so that "same instance" and "constructor invoked" are
observable in the model. -/
structure StInstance where
  typeId : Nat
  instId : Nat
deriving DecidableEq, Repr

/-- The `SkillToolset` namespaces table plus an allocation counter counting
constructor calls. -/
structure NsRegistry where
  table : List (String × StInstance)
  nextInst : Nat
deriving DecidableEq, Repr

/-- Dictionary lookup in the namespaces table. -/
def nsLookup (table : List (String × StInstance)) (ns : String) :
    Option StInstance :=
  (table.find? fun entry => entry.1 == ns).map (fun entry => entry.2)

/-- agent.py `_register_skill_state`: a skill without state type or
namespace is skipped; an occupied namespace must carry the same type (else
TypeError) and its existing instance is kept untouched; a free namespace
gets a fresh instance from the type's zero-argument constructor. -/
def register_skill_state (reg : NsRegistry) (stateType : Option Nat)
    (stateNamespace : Option String) : Except String NsRegistry :=
  match stateType, stateNamespace with
  | some ty, some ns =>
    match nsLookup reg.table ns with
    | some inst =>
        if inst.typeId ≠ ty then
          .error ("Namespace '" ++ ns ++ "' registered with type "
            ++ toString inst.typeId ++ ", cannot re-register with "
            ++ toString ty)
        else .ok reg
    | none =>
        .ok ⟨(ns, ⟨ty, reg.nextInst⟩) :: reg.table, reg.nextInst + 1⟩
  | _, _ => .ok reg

/-! ## Event stream cleanup (agent.py `AguiEventStream`) -/

/-- The phase of the background drain task. -/
inductive TaskPhase where
  | running
  | finishedOk
  | wasCancelled
deriving DecidableEq, Repr

/-- A task no longer runs once finished or cancelled-and-awaited. -/
def TaskPhase.finished : TaskPhase → Bool
  | .running => false
  | _ => true

/-- The observable state of one `AguiEventStream` use: whether the
toolset's `_event_sink` is attached, the background drain task, and the
queue contents (`none` being the terminal sentinel). -/
structure StreamState where
  sinkAttached : Bool
  task : Option TaskPhase
  queue : List (Option Nat)
deriving DecidableEq, Repr

/-- `AguiEventStream.__aenter__`: install the event sink on the toolset and
start the background drain task. -/
def agui_enter (s : StreamState) : StreamState :=
  { s with sinkAttached := true, task := some .running }

/-- Consumption through `__anext__`: the consumer pops `k` queue items and
may break out at any point, leaving the rest unread. -/
def agui_consume (s : StreamState) (k : Nat) : StreamState :=
  { s with queue := s.queue.drop k }

/-- `AguiEventStream.__aexit__`: detach the sink; when the task exists and
is not yet done, cancel it and await it to completion. -/
def agui_exit (s : StreamState) : StreamState :=
  { s with
      sinkAttached := false
      task := s.task.map fun t => if t = .running then .wasCancelled else t }

/-! ## Resource discovery (src/haiku/skills/discovery.py) -/

/-- pathlib `PurePath.suffix` of a file name: the piece from the last dot,
when that dot is neither the first nor the last character of the name. -/
def pySuffix (fileName : String) : String :=
  let cs := fileName.data
  match cs.reverse.findIdx? (fun c => c == '.') with
  | none => ""
  | some j =>
      let i := cs.length - 1 - j
      if 0 < i ∧ i < cs.length - 1 then String.mk (cs.drop i) else ""

/-- pathlib `PurePath.name` of a relative path given as segments. -/
def relName (rel : List String) : String :=
  (rel.getLast?).getD ""

/-- Render a segment list back to a relative path string (Python
`str(relative)` with `/` separators). -/
def joinPath (segs : List String) : String :=
  String.intercalate "/" segs

/-- discovery.py's per-file filter: drop the root SKILL.md (`name ==
"SKILL.md" and parent == "."`), anything whose first component is `scripts`
or `__pycache__`, and any file with suffix `.py` or `.pyc`. -/
def keepResource (rel : List String) : Bool :=
  !(relName rel == "SKILL.md" && rel.length == 1)
  && !(match rel.head? with
       | some h => h == "scripts" || h == "__pycache__"
       | none => false)
  && !(pySuffix (relName rel) == ".py" || pySuffix (relName rel) == ".pyc")

/-- discovery.py `discover_resources`, over the listing of regular files
under the skill root (as relative segment lists): filter, render, sort. -/
def discover_resources (files : List (List String)) : List String :=
  ((files.filter keepResource).map joinPath).mergeSort
    (fun a b => decide (a ≤ b))

/-- The claim's exclusion rules stated in its own terms: not the definition
document at the root (a SKILL.md in a subdirectory stays), not under the
`scripts` or `__pycache__` trees, and not a `.py`/`.pyc` artifact anywhere. -/
def claimKeep (rel : List String) : Prop :=
  rel ≠ ["SKILL.md"] ∧
  rel.head? ≠ some "scripts" ∧ rel.head? ≠ some "__pycache__" ∧
  pySuffix (relName rel) ≠ ".py" ∧ pySuffix (relName rel) ≠ ".pyc"

/-! ## Snapshot trees and delta computation (src/haiku/skills/state.py)

State snapshots are JSON-compatible trees (`model_dump(mode="json")`).
`compute_state_delta` calls the external jsonpatch library's `make_patch`;
that library is not part of this repository, so the tree diff below is
modelled from the spec: a deterministic tree-diff that emits
add/replace/remove operations at the finest granularity the tree allows
and emits no operation for an unchanged subtree. -/

mutual
inductive Json where
  | null : Json
  | bool (b : Bool) : Json
  | num (n : Int) : Json
  | str (s : String) : Json
  | arr (elems : JsonList) : Json
  | obj (fields : JsonObj) : Json
deriving Repr

inductive JsonList where
  | nil : JsonList
  | cons (hd : Json) (tl : JsonList) : JsonList
deriving Repr

inductive JsonObj where
  | nil : JsonObj
  | cons (key : String) (val : Json) (tl : JsonObj) : JsonObj
deriving Repr
end

mutual
def Json.beq : Json → Json → Bool
  | .null, .null => true
  | .bool a, .bool b => a == b
  | .num a, .num b => a == b
  | .str a, .str b => a == b
  | .arr xs, .arr ys => JsonList.beq xs ys
  | .obj fs, .obj gs => JsonObj.beq fs gs
  | _, _ => false

def JsonList.beq : JsonList → JsonList → Bool
  | .nil, .nil => true
  | .cons x xs, .cons y ys => Json.beq x y && JsonList.beq xs ys
  | _, _ => false

def JsonObj.beq : JsonObj → JsonObj → Bool
  | .nil, .nil => true
  | .cons k v tl, .cons k' v' tl' => k == k' && Json.beq v v' && JsonObj.beq tl tl'
  | _, _ => false
end

mutual
theorem jsonBeqRefl : ∀ j : Json, Json.beq j j = true
  | .null => by rw [Json.beq]
  | .bool b => by rw [Json.beq]; simp
  | .num n => by rw [Json.beq]; simp
  | .str s => by rw [Json.beq]; simp
  | .arr xs => by rw [Json.beq]; exact jsonListBeqRefl xs
  | .obj fs => by rw [Json.beq]; exact jsonObjBeqRefl fs

theorem jsonListBeqRefl : ∀ xs : JsonList, JsonList.beq xs xs = true
  | .nil => by rw [JsonList.beq]
  | .cons x xs => by
      rw [JsonList.beq]
      simp [jsonBeqRefl x, jsonListBeqRefl xs]

theorem jsonObjBeqRefl : ∀ fs : JsonObj, JsonObj.beq fs fs = true
  | .nil => by rw [JsonObj.beq]
  | .cons k v tl => by
      rw [JsonObj.beq]
      simp [jsonBeqRefl v, jsonObjBeqRefl tl]
end

mutual
theorem jsonEqOfBeq : ∀ {a b : Json}, Json.beq a b = true → a = b
  | .null, .null, _ => rfl
  | .bool a, .bool b, h => by rw [Json.beq] at h; simp at h; simp [h]
  | .num a, .num b, h => by rw [Json.beq] at h; simp at h; simp [h]
  | .str a, .str b, h => by rw [Json.beq] at h; simp at h; simp [h]
  | .arr xs, .arr ys, h => by
      rw [Json.beq] at h
      rw [jsonListEqOfBeq h]
  | .obj fs, .obj gs, h => by
      rw [Json.beq] at h
      rw [jsonObjEqOfBeq h]

theorem jsonListEqOfBeq : ∀ {a b : JsonList}, JsonList.beq a b = true → a = b
  | .nil, .nil, _ => rfl
  | .cons x xs, .cons y ys, h => by
      rw [JsonList.beq] at h
      simp only [Bool.and_eq_true] at h
      rw [jsonEqOfBeq h.1, jsonListEqOfBeq h.2]

theorem jsonObjEqOfBeq : ∀ {a b : JsonObj}, JsonObj.beq a b = true → a = b
  | .nil, .nil, _ => rfl
  | .cons k v tl, .cons k' v' tl', h => by
      rw [JsonObj.beq] at h
      simp only [Bool.and_eq_true, beq_iff_eq] at h
      rw [h.1.1, jsonEqOfBeq h.1.2, jsonObjEqOfBeq h.2]
end

/-- One JSON Patch operation: kind, pointer path into the snapshot tree,
and the value for add/replace. -/
inductive PatchOp where
  | add (path : List String) (value : Json)
  | remove (path : List String)
  | replace (path : List String) (value : Json)
deriving Repr

mutual
/-- Tree diff of two JSON values (modelled from the spec, standing in for
jsonpatch `make_patch`): an unchanged subtree yields no operation, objects
are diffed field by field, any other change is a replace at the
current path. -/
def diffJson (path : List String) (old new : Json) : List PatchOp :=
  if Json.beq old new then []
  else
    match old, new with
    | .obj fs, .obj gs => diffObj path fs gs
    | _, n => [.replace path n]

/-- Field-level diff of two objects, walking both key lists. -/
def diffObj (path : List String) (old new : JsonObj) : List PatchOp :=
  match old, new with
  | .nil, .nil => []
  | .nil, .cons k v tl => .add (path ++ [k]) v :: diffObj path .nil tl
  | .cons k _ tl, .nil => .remove (path ++ [k]) :: diffObj path tl .nil
  | .cons k1 v1 tl1, .cons k2 v2 tl2 =>
    if k1 = k2 then diffJson (path ++ [k1]) v1 v2 ++ diffObj path tl1 tl2
    else if k1 < k2 then .remove (path ++ [k1]) :: diffObj path tl1 (.cons k2 v2 tl2)
    else .add (path ++ [k2]) v2 :: diffObj path (.cons k1 v1 tl1) tl2
end

/-- The AG-UI StateDeltaEvent payload: the ordered operation list. -/
structure StateDeltaEvent where
  delta : List PatchOp
deriving Repr

/-- state.py `compute_state_delta`: diff the snapshots; `None` when the
patch has no operations, otherwise the event carrying the ordered list. -/
def compute_state_delta (old new : JsonObj) : Option StateDeltaEvent :=
  if (diffObj [] old new).isEmpty then none else some ⟨diffObj [] old new⟩

theorem diffJson_self (p : List String) (j : Json) : diffJson p j j = [] := by
  rw [diffJson.eq_def, jsonBeqRefl j]
  simp

theorem diffObj_self : ∀ (p : List String) (o : JsonObj), diffObj p o o = []
  | _, .nil => diffObj.eq_1 _
  | p, .cons k v tl => by
      rw [diffObj.eq_4]
      simp [diffJson_self, diffObj_self p tl]

theorem diff_nil_imp_eq_aux : ∀ n : Nat,
    (∀ (p : List String) (a b : Json),
      sizeOf a + sizeOf b ≤ n → diffJson p a b = [] → a = b) ∧
    (∀ (p : List String) (o m : JsonObj),
      sizeOf o + sizeOf m ≤ n → diffObj p o m = [] → o = m) := by
  intro n
  induction n using Nat.strong_induction_on with
  | _ n IH =>
    constructor
    · intro p a b hsz h
      by_cases hb : Json.beq a b = true
      · exact jsonEqOfBeq hb
      · rw [diffJson.eq_def] at h
        rw [if_neg hb] at h
        split at h
        · rename_i fs gs
          have h1 : sizeOf fs + sizeOf gs < n := by
            have e1 : sizeOf (Json.obj fs) = 1 + sizeOf fs := by simp
            have e2 : sizeOf (Json.obj gs) = 1 + sizeOf gs := by simp
            omega
          exact congrArg Json.obj ((IH _ h1).2 p fs gs (le_refl _) h)
        · simp at h
    · intro p o m hsz h
      rw [diffObj.eq_def] at h
      split at h
      · rfl
      · simp at h
      · simp at h
      · rename_i k1 v1 tl1 k2 v2 tl2
        split at h
        · rename_i hk
          rw [List.append_eq_nil] at h
          have e1 : sizeOf (JsonObj.cons k1 v1 tl1) =
              1 + sizeOf k1 + sizeOf v1 + sizeOf tl1 := by simp
          have e2 : sizeOf (JsonObj.cons k2 v2 tl2) =
              1 + sizeOf k2 + sizeOf v2 + sizeOf tl2 := by simp
          have hv : sizeOf v1 + sizeOf v2 < n := by omega
          have ht : sizeOf tl1 + sizeOf tl2 < n := by omega
          have hveq := (IH _ hv).1 (p ++ [k1]) v1 v2 (le_refl _) h.1
          have hteq := (IH _ ht).2 p tl1 tl2 (le_refl _) h.2
          rw [hk, hveq, hteq]
        · split at h
          · simp at h
          · simp at h

theorem diffObj_nil_imp_eq {p : List String} {o m : JsonObj}
    (h : diffObj p o m = []) : o = m :=
  (diff_nil_imp_eq_aux (sizeOf o + sizeOf m)).2 p o m (le_refl _) h

/-! ## Skill execution boundary (agent.py `execute_skill`) -/

/-- The registry-visible face of a skill, as `execute_skill` uses it. -/
structure SkillEntry where
  name : String
  stateNamespace : Option String
deriving Repr

/-- What one `_run_skill` invocation produced when it did not raise: the
result text, the tool events collected in batch mode (opaque payloads
here), and the value of the passed state object after the run (tools
mutate it in place). -/
structure RunOut where
  result : String
  events : List Nat
  stateAfter : Json
deriving Repr

/-- An entry of the ToolReturn metadata list: a converted AG-UI tool event
or the state-delta event. -/
inductive MetaEvent where
  | toolEvent (payload : Nat)
  | deltaEvent (ops : List PatchOp)
deriving Repr

/-- What the `execute_skill` tool returns to the calling agent: always a
value, never an exception — a plain string or a ToolReturn with metadata. -/
inductive ExecReturn where
  | plain (s : String)
  | withMeta (s : String) (meta : List MetaEvent)
deriving Repr

/-- agent.py `execute_skill` (the tool registered by `_register_tools`):
unknown skill names and exceptions out of `_run_skill` become returned
`Error:` strings; on success, batch-mode tool events and a nonempty state
delta are attached as ToolReturn metadata.  `run` stands for the awaited
`_run_skill` call: `.error e` is a raised exception with message `e`. -/
def execute_skill (registry : List SkillEntry)
    (namespaces : List (String × Json)) (hasSink : Bool) (skillName : String)
    (run : Except String RunOut) : ExecReturn :=
  match registry.find? (fun sk => sk.name == skillName) with
  | none => .plain ("Error: Skill '" ++ skillName ++ "' not found in registry")
  | some skill =>
    match run with
    | .error e => .plain ("Error: " ++ e)
    | .ok out =>
      let collected : List MetaEvent :=
        if hasSink then [] else out.events.map MetaEvent.toolEvent
      let stateBefore : Option Json :=
        match skill.stateNamespace with
        | some ns => (namespaces.find? (fun q => q.1 == ns)).map (fun q => q.2)
        | none => none
      let deltaPart : List MetaEvent :=
        match skill.stateNamespace, stateBefore with
        | some ns, some old =>
            match compute_state_delta (.cons ns old .nil)
                (.cons ns out.stateAfter .nil) with
            | some ev => [.deltaEvent ev.delta]
            | none => []
        | _, _ => []
      let metadata := collected ++ deltaPart
      if metadata.isEmpty then .plain out.result
      else .withMeta out.result metadata

/-! ## Claim theorems -/

theorem asciiLower_changes {name : String}
    (h : ∃ c ∈ name.data, asciiLowerChar c ≠ c) : name ≠ asciiLower name := by
  obtain ⟨c, hc, hne⟩ := h
  intro he
  have h2 : name.data = name.data.map asciiLowerChar := congrArg String.data he
  exact hne ((map_eq_self_iff_fixed _ _).mp h2.symm c hc)

/-- C5: every 1–64 character string of lowercase alphanumerics and single
internal hyphens is accepted unchanged; a string with a character changed
by lowercasing (an uppercase letter), a leading or trailing hyphen, a
doubled hyphen, a forbidden character, length over 64 or length zero is
rejected, and the error names the violated rule. -/
theorem skill_name_validation_spec (name : String) :
    (ValidName name → validateNameField name = .ok name) ∧
    (∀ s, validateNameField name = .ok s →
      s = name ∧ 1 ≤ name.data.length ∧ name.data.length ≤ 64 ∧
      name = asciiLower name ∧ headIsHyphen name = false ∧
      lastIsHyphen name = false ∧ hasDoubleHyphen name = false ∧
      (name.data.all fun c => pyIsAlnum c || c == '-') = true) ∧
    ((∃ c ∈ name.data, asciiLowerChar c ≠ c) → name.data.length ≤ 64 →
      validateNameField name = .error "name must be lowercase") ∧
    (1 ≤ name.data.length → name.data.length ≤ 64 → name = asciiLower name →
      (headIsHyphen name || lastIsHyphen name) = true →
      validateNameField name = .error "name must not start or end with a hyphen") ∧
    (1 ≤ name.data.length → name.data.length ≤ 64 → name = asciiLower name →
      headIsHyphen name = false → lastIsHyphen name = false →
      hasDoubleHyphen name = true →
      validateNameField name = .error "name must not contain consecutive hyphens") ∧
    (1 ≤ name.data.length → name.data.length ≤ 64 → name = asciiLower name →
      headIsHyphen name = false → lastIsHyphen name = false →
      hasDoubleHyphen name = false →
      (name.data.all fun c => pyIsAlnum c || c == '-') = false →
      validateNameField name = .error
        "name must contain only lowercase alphanumeric characters and hyphens") ∧
    (64 < name.data.length →
      validateNameField name = .error "String should have at most 64 characters") ∧
    (name.data.length = 0 →
      validateNameField name = .error "String should have at least 1 character") := by
  refine ⟨validateNameField_accepts, fun s h => validateNameField_ok_shape h,
    ?_, ?_, ?_, ?_, ?_, ?_⟩
  · intro hup hlen
    have hlow := asciiLower_changes hup
    have hne : name.data ≠ [] := by
      intro h0
      apply hlow
      have hmap : name.data = name.data.map asciiLowerChar := by rw [h0]; rfl
      exact congrArg String.mk hmap
    have hpos := List.length_pos.mpr hne
    unfold validateNameField validate_skill_name
    rw [if_neg (by omega), if_neg (by omega), if_pos hlow]
  · intro hmin hmax heq hhyp
    unfold validateNameField validate_skill_name
    rw [if_neg (by omega), if_neg (by omega),
      if_neg (fun hn => hn heq), if_pos hhyp]
  · intro hmin hmax heq hh hl hdbl
    unfold validateNameField validate_skill_name
    rw [if_neg (by omega), if_neg (by omega), if_neg (fun hn => hn heq),
      if_neg (by simp [hh, hl]), if_pos hdbl]
  · intro hmin hmax heq hh hl hdbl hbad
    unfold validateNameField validate_skill_name
    rw [if_neg (by omega), if_neg (by omega), if_neg (fun hn => hn heq),
      if_neg (by simp [hh, hl]), if_neg (by simp [hdbl]),
      if_pos (by simp [hbad])]
  · intro hbig
    unfold validateNameField
    rw [if_neg (by omega), if_pos hbig]
  · intro hzero
    unfold validateNameField
    rw [if_pos (by omega)]

/-- C5 witness: concrete names exercising acceptance and each rejection. -/
theorem skill_name_validation_witness :
    validateNameField "my-skill-2" = .ok "my-skill-2" ∧
    validateNameField "My-Skill" = .error "name must be lowercase" ∧
    validateNameField "-skill" = .error "name must not start or end with a hyphen" ∧
    validateNameField "skill-" = .error "name must not start or end with a hyphen" ∧
    validateNameField "a--b" = .error "name must not contain consecutive hyphens" ∧
    validateNameField "a_b" = .error
      "name must contain only lowercase alphanumeric characters and hyphens" ∧
    validateNameField "" = .error "String should have at least 1 character" := by
  refine ⟨(skill_name_validation_spec "my-skill-2").1 (by unfold ValidName; decide),
    (skill_name_validation_spec "My-Skill").2.2.1 ⟨'M', by decide, by decide⟩
      (by decide),
    (skill_name_validation_spec "-skill").2.2.2.1 (by decide) (by decide)
      (by decide) (by decide),
    (skill_name_validation_spec "skill-").2.2.2.1 (by decide) (by decide)
      (by decide) (by decide),
    (skill_name_validation_spec "a--b").2.2.2.2.1 (by decide) (by decide)
      (by decide) (by decide) (by decide) (by decide),
    (skill_name_validation_spec "a_b").2.2.2.2.2.1 (by decide) (by decide)
      (by decide) (by decide) (by decide) (by decide) (by decide),
    (skill_name_validation_spec "").2.2.2.2.2.2.2 (by decide)⟩

/-- C2: `read_resource` succeeds only when the path is declared and its
resolution stays inside the resolved root; either violation yields the
not-an-available-resource ValueError (in particular a declared path whose
resolution escapes the root), and a declared, in-root path whose file does
not decode yields the distinct not-a-text-file ValueError. -/
theorem read_resource_sandbox_spec (fs : FsModel) (sk : SkillFiles) (p : String) :
    (∀ s, read_resource fs sk p = .ok s →
      sk.resources.contains p = true ∧
      (fs.resolve sk.root).isPrefixOf (fs.resolve (sk.root ++ splitPath p)) = true) ∧
    (sk.resources.contains p = false →
      read_resource fs sk p =
        .error (.valueError ("'" ++ p ++ "' is not an available resource"))) ∧
    (sk.resources.contains p = true →
      (fs.resolve sk.root).isPrefixOf (fs.resolve (sk.root ++ splitPath p)) = false →
      read_resource fs sk p =
        .error (.valueError ("'" ++ p ++ "' is not an available resource"))) ∧
    (sk.resources.contains p = true →
      (fs.resolve sk.root).isPrefixOf (fs.resolve (sk.root ++ splitPath p)) = true →
      fs.read (fs.resolve (sk.root ++ splitPath p)) = .decodeFailure →
      read_resource fs sk p =
        .error (.valueError ("'" ++ p ++ "' is not a text file"))) := by
  refine ⟨?_, ?_, ?_, ?_⟩
  · intro s h
    simp only [read_resource] at h
    split at h
    · exact absurd h (by simp)
    · rename_i hres
      split at h
      · exact absurd h (by simp)
      · rename_i hpre
        exact ⟨not_not.mp hres, not_not.mp hpre⟩
  · intro hres
    unfold read_resource
    rw [if_pos (show ¬ (sk.resources.contains p = true) by
      simp only [hres]; decide)]
  · intro hres hpre
    unfold read_resource
    rw [if_neg (show ¬¬(sk.resources.contains p = true) by
        simp only [hres]; decide),
      if_pos (show ¬ ((fs.resolve sk.root).isPrefixOf
        (fs.resolve (sk.root ++ splitPath p)) = true) by
        simp only [hpre]; decide)]
  · intro hres hpre hread
    unfold read_resource
    rw [if_neg (show ¬¬(sk.resources.contains p = true) by
        simp only [hres]; decide),
      if_neg (show ¬¬((fs.resolve sk.root).isPrefixOf
        (fs.resolve (sk.root ++ splitPath p)) = true) by
        simp only [hpre]; decide),
      hread]

/-- C2 witness: a missing declaration, a declared path whose resolution
escapes the root, and a declared in-root file that does not decode. -/
theorem read_resource_sandbox_witness :
    read_resource ⟨fun l => l, fun _ => .decodeFailure⟩ ⟨["root"], ["a.txt"]⟩
      "b.txt" = .error (.valueError "'b.txt' is not an available resource") ∧
    read_resource ⟨fun l => if l = ["root"] then l else ["outside"],
        fun _ => .decodeFailure⟩ ⟨["root"], ["link.txt"]⟩ "link.txt" =
      .error (.valueError "'link.txt' is not an available resource") ∧
    read_resource ⟨fun l => l, fun _ => .decodeFailure⟩ ⟨["root"], ["a.txt"]⟩
      "a.txt" = .error (.valueError "'a.txt' is not a text file") := by
  refine ⟨?_, ?_, ?_⟩
  · have h := (read_resource_sandbox_spec ⟨fun l => l, fun _ => .decodeFailure⟩
      ⟨["root"], ["a.txt"]⟩ "b.txt").2.1 (by decide)
    simpa using h
  · have h := (read_resource_sandbox_spec
      ⟨fun l => if l = ["root"] then l else ["outside"], fun _ => .decodeFailure⟩
      ⟨["root"], ["link.txt"]⟩ "link.txt").2.2.1 (by decide) (by decide)
    simpa using h
  · have h := (read_resource_sandbox_spec ⟨fun l => l, fun _ => .decodeFailure⟩
      ⟨["root"], ["a.txt"]⟩ "a.txt").2.2.2 (by decide) (by decide) rfl
    simpa using h

/-- C3: registering a namespace a second time with a different type is a
TypeError; with the same type the registration succeeds, leaves the table
and the allocation counter untouched (the constructor is not invoked
again), and the lookup both skills perform yields the instance created at
first registration. -/
theorem register_skill_state_spec (reg : NsRegistry) (ns : String)
    (tyA tyB : Nat) (hfree : nsLookup reg.table ns = none) :
    register_skill_state reg (some tyA) (some ns) =
      .ok ⟨(ns, ⟨tyA, reg.nextInst⟩) :: reg.table, reg.nextInst + 1⟩ ∧
    nsLookup ((ns, (⟨tyA, reg.nextInst⟩ : StInstance)) :: reg.table) ns =
      some ⟨tyA, reg.nextInst⟩ ∧
    (tyB ≠ tyA →
      register_skill_state
        ⟨(ns, ⟨tyA, reg.nextInst⟩) :: reg.table, reg.nextInst + 1⟩
        (some tyB) (some ns) =
      .error ("Namespace '" ++ ns ++ "' registered with type "
        ++ toString tyA ++ ", cannot re-register with " ++ toString tyB)) ∧
    register_skill_state
        ⟨(ns, ⟨tyA, reg.nextInst⟩) :: reg.table, reg.nextInst + 1⟩
        (some tyA) (some ns) =
      .ok ⟨(ns, ⟨tyA, reg.nextInst⟩) :: reg.table, reg.nextInst + 1⟩ := by
  have hlook : nsLookup ((ns, (⟨tyA, reg.nextInst⟩ : StInstance)) :: reg.table)
      ns = some ⟨tyA, reg.nextInst⟩ := by
    simp [nsLookup, List.find?]
  refine ⟨?_, hlook, ?_, ?_⟩
  · simp [register_skill_state, hfree]
  · intro hne
    have hne' : tyA ≠ tyB := Ne.symm hne
    simp [register_skill_state, hlook, hne']
  · simp [register_skill_state, hlook]

/-- C3 witness: namespace "shared" registered with type 0, then with
type 1 (conflict) and again with type 0 (same instance retained). -/
theorem register_skill_state_witness :
    register_skill_state ⟨[], 0⟩ (some 0) (some "shared") =
      .ok ⟨[("shared", ⟨0, 0⟩)], 1⟩ ∧
    nsLookup [("shared", (⟨0, 0⟩ : StInstance))] "shared" = some ⟨0, 0⟩ ∧
    (1 ≠ 0 →
      register_skill_state ⟨[("shared", ⟨0, 0⟩)], 1⟩ (some 1) (some "shared") =
      .error ("Namespace 'shared' registered with type "
        ++ toString 0 ++ ", cannot re-register with " ++ toString 1)) ∧
    register_skill_state ⟨[("shared", ⟨0, 0⟩)], 1⟩ (some 0) (some "shared") =
      .ok ⟨[("shared", ⟨0, 0⟩)], 1⟩ := by
  have h := register_skill_state_spec ⟨[], 0⟩ "shared" 0 1 rfl
  simpa using h

/-- C4: the delta of a snapshot with itself is None; an empty tree diff is
reported as None and a returned event never carries an empty operation
list; distinct snapshots yield the event with the diff's ordered,
nonempty operation list. -/
theorem compute_state_delta_spec (S o n : JsonObj) :
    compute_state_delta S S = none ∧
    (diffObj [] o n = [] → compute_state_delta o n = none) ∧
    (∀ ev, compute_state_delta o n = some ev → ev.delta ≠ []) ∧
    (o ≠ n → compute_state_delta o n = some ⟨diffObj [] o n⟩ ∧
      diffObj [] o n ≠ []) := by
  refine ⟨?_, ?_, ?_, ?_⟩
  · unfold compute_state_delta
    rw [diffObj_self]
    simp
  · intro h
    unfold compute_state_delta
    rw [h]
    simp
  · intro ev h
    unfold compute_state_delta at h
    split at h
    · exact absurd h (by simp)
    · rename_i hne
      injection h with hev
      rw [← hev]
      simpa using hne
  · intro hne
    have hd : diffObj [] o n ≠ [] := fun h => hne (diffObj_nil_imp_eq h)
    unfold compute_state_delta
    rw [if_neg (by simpa using hd)]
    exact ⟨rfl, hd⟩

/-- C4 witness: an unchanged one-namespace snapshot gives None; a changed
counter gives the single replace operation at its field path. -/
theorem compute_state_delta_witness :
    compute_state_delta (.cons "ns" (.num 1) .nil) (.cons "ns" (.num 1) .nil) =
      none ∧
    compute_state_delta (.cons "ns" (.num 1) .nil) (.cons "ns" (.num 2) .nil) =
      some ⟨[.replace ["ns"] (.num 2)]⟩ := by
  constructor
  · exact (compute_state_delta_spec (.cons "ns" (.num 1) .nil)
      (.cons "ns" (.num 1) .nil) (.cons "ns" (.num 1) .nil)).1
  · have h := (compute_state_delta_spec JsonObj.nil (.cons "ns" (.num 1) .nil)
      (.cons "ns" (.num 2) .nil)).2.2.2 (by simp)
    have heval : diffObj [] (.cons "ns" (.num 1) .nil)
        (.cons "ns" (.num 2) .nil) = [.replace ["ns"] (.num 2)] := by
      rw [diffObj.eq_4]
      simp only [if_pos rfl]
      rw [diffJson.eq_def]
      simp [Json.beq, diffObj.eq_1]
    rw [h.1, heval]

/-- C1: the execute_skill tool returns a value in every case — an unknown
skill name yields the exact not-found error string, an exception raised by
the sub-agent run (or any tool inside it) is returned as its message behind
the `Error: ` prefix, and in every failure mode the caller receives an
`Error:`-prefixed string rather than a raised exception. -/
theorem execute_skill_error_boundary (registry : List SkillEntry)
    (namespaces : List (String × Json)) (hasSink : Bool) (skillName : String)
    (run : Except String RunOut) :
    (registry.find? (fun sk => sk.name == skillName) = none →
      execute_skill registry namespaces hasSink skillName run =
        .plain ("Error: Skill '" ++ skillName ++ "' not found in registry")) ∧
    (∀ sk e, registry.find? (fun q => q.name == skillName) = some sk →
      run = .error e →
      execute_skill registry namespaces hasSink skillName run =
        .plain ("Error: " ++ e)) ∧
    (∀ e, run = .error e → ∃ s,
      execute_skill registry namespaces hasSink skillName run = .plain s ∧
      strStarts s "Error:" = true) := by
  refine ⟨?_, ?_, ?_⟩
  · intro hfind
    unfold execute_skill
    rw [hfind]
  · intro sk e hfind herr
    unfold execute_skill
    rw [hfind, herr]
  · intro e herr
    unfold execute_skill
    cases hfind : registry.find? (fun sk => sk.name == skillName) with
    | none =>
        refine ⟨_, rfl, ?_⟩
        have h1 : ("Error: Skill '" : String) = "Error:" ++ " Skill '" := rfl
        rw [h1, String.append_assoc, String.append_assoc]
        exact strStarts_append _ _
    | some sk =>
        rw [herr]
        refine ⟨_, rfl, ?_⟩
        have h1 : ("Error: " : String) = "Error:" ++ " " := rfl
        rw [h1, String.append_assoc]
        exact strStarts_append _ _

/-- C1 witness: a one-skill registry, exercising the unknown-name string
and the caught-exception string. -/
theorem execute_skill_error_boundary_witness :
    execute_skill [⟨"web", none⟩] [] false "missing"
      (.ok ⟨"done", [], .null⟩) =
      .plain "Error: Skill 'missing' not found in registry" ∧
    execute_skill [⟨"web", none⟩] [] false "web" (.error "boom") =
      .plain "Error: boom" := by
  constructor
  · have h := (execute_skill_error_boundary [⟨"web", none⟩] [] false "missing"
      (.ok ⟨"done", [], .null⟩)).1 rfl
    simpa using h
  · have h := (execute_skill_error_boundary [⟨"web", none⟩] [] false "web"
      (.error "boom")).2.1 ⟨"web", none⟩ "boom" rfl rfl
    simpa using h

/-- C6 counterexample: under the script-tools runner a script that exits 1
with empty stderr and a usage message on stdout produces an error message
that does not contain the stdout text, although the claim requires the
stdout fallback for every run_script failure. -/
theorem run_script_tool_stdout_fallback_cex :
    run_script_tool_report "usage.py" ⟨1, "Usage: usage.py <arg>", ""⟩ =
      .error "Script usage.py failed (exit 1): " ∧
    strContains "Script usage.py failed (exit 1): " "Usage: usage.py <arg>" =
      false := by
  exact ⟨rfl, by decide⟩

/-- C6 amended: on nonzero exit both runners raise a RuntimeError whose
message contains the exit code and the stripped stderr; the stdout
fallback for empty stderr holds for the sandbox runner in agent.py, while
the script-tools runner reports stderr only. -/
theorem run_script_failure_reporting_amended (script : String) (code : Int)
    (out err : String) (hc : code ≠ 0) :
    (∃ msg, run_script_report script ⟨code, out, err⟩ = .error msg ∧
      strContains msg (toString code) = true ∧
      strContains msg (pyStrip err) = true ∧
      (pyStrip err = "" → strContains msg (pyStrip out) = true)) ∧
    (∃ msg, run_script_tool_report script ⟨code, out, err⟩ = .error msg ∧
      strContains msg (toString code) = true ∧
      strContains msg (pyStrip err) = true) := by
  constructor
  · refine ⟨"Script " ++ script ++ " failed (exit " ++ toString code ++ "): "
      ++ pyOrStr (pyStrip err) (pyStrip out), ?_, ?_, ?_, ?_⟩
    · unfold run_script_report
      rw [if_pos hc]
    · rw [String.append_assoc]
      exact strContains_append _ _ _
    · by_cases hs : pyStrip err = ""
      · rw [hs]
        exact strContains_empty _
      · have hx : pyOrStr (pyStrip err) (pyStrip out) = pyStrip err := by
          unfold pyOrStr
          rw [if_neg hs]
        rw [hx]
        exact strContains_tail _ _
    · intro hs
      have hx : pyOrStr (pyStrip err) (pyStrip out) = pyStrip out := by
        unfold pyOrStr
        rw [hs]
        simp
      rw [hx]
      exact strContains_tail _ _
  · refine ⟨"Script " ++ script ++ " failed (exit " ++ toString code ++ "): "
      ++ pyStrip err, ?_, ?_, ?_⟩
    · unfold run_script_tool_report
      rw [if_pos hc]
    · rw [String.append_assoc]
      exact strContains_append _ _ _
    · exact strContains_tail _ _

/-- C6 witness: exit code 1 with stderr classified, at concrete streams. -/
theorem run_script_failure_reporting_witness :
    (∃ msg, run_script_report "fail.py" ⟨1, "partial output", " boom "⟩ =
        .error msg ∧
      strContains msg (toString (1 : Int)) = true ∧
      strContains msg (pyStrip " boom ") = true ∧
      (pyStrip " boom " = "" → strContains msg (pyStrip "partial output") = true)) ∧
    (∃ msg, run_script_tool_report "fail.py" ⟨1, "partial output", " boom "⟩ =
        .error msg ∧
      strContains msg (toString (1 : Int)) = true ∧
      strContains msg (pyStrip " boom ") = true) :=
  run_script_failure_reporting_amended "fail.py" 1 "partial output" " boom "
    (by decide)

/-- C7 counterexample: when the run's final action is a tool call that
returned the empty string, the execution core returns the model's closing
output instead of the tool's raw (empty) return value, because the Python
`or` treats the empty string as falsy. -/
theorem run_skill_text_empty_tool_result_cex :
    last_tool_result [.request [.toolReturn ""]] = some "" ∧
    run_skill_text [.request [.toolReturn ""]] "model closing text" =
      "model closing text" ∧
    ("model closing text" : String) ≠ "" := by
  refine ⟨rfl, rfl, by decide⟩

/-- C7 amended: a nonempty last tool result is returned in preference to
the model output; with no tool result, or an empty-string tool result, the
model output is returned; and a tool return as the history's final part is
what `_last_tool_result` finds. -/
theorem run_skill_text_amended (messages : List ModelMsg) (output r : String) :
    (last_tool_result messages = some r → r ≠ "" →
      run_skill_text messages output = r) ∧
    (last_tool_result messages = none →
      run_skill_text messages output = output) ∧
    (last_tool_result messages = some "" →
      run_skill_text messages output = output) ∧
    (∀ pre parts, messages = pre ++ [.request (parts ++ [.toolReturn r])] →
      last_tool_result messages = some r) := by
  refine ⟨?_, ?_, ?_, ?_⟩
  · intro h hr
    unfold run_skill_text pyOrOpt
    rw [h]
    simp [hr]
  · intro h
    unfold run_skill_text pyOrOpt
    rw [h]
  · intro h
    unfold run_skill_text pyOrOpt
    rw [h]
    simp
  · intro pre parts hmsg
    subst hmsg
    unfold last_tool_result
    simp [List.reverse_append, List.findSome?_cons, partToolReturn]

/-- C7 witness: a nonempty tool return as the final action is preferred
over the model output. -/
theorem run_skill_text_witness :
    run_skill_text [.request [.toolReturn "tool answer"]] "model text" =
      "tool answer" :=
  (run_skill_text_amended [.request [.toolReturn "tool answer"]]
    "model text" "tool answer").1 rfl (by decide)

/-- C8: the parser crashes (AttributeError) on a nonempty native YAML list
for `allowed-tools` — contradicting the repository's own
test_allowed_tools_parsed_from_yaml_list and the model validator, which
accepts lists — while the string, blank-string and absent forms normalize
as the claim states. -/
theorem parse_allowed_tools_yaml_list_bug :
    parse_allowed_tools (some (.list ["Read", "Write"])) =
      .attributeError "'list' object has no attribute 'split'" ∧
    validate_allowed_tools (.list ["Read", "Write"]) = ["Read", "Write"] ∧
    parse_allowed_tools (some (.str "Read Write")) = .ok ["Read", "Write"] ∧
    parse_allowed_tools (some (.str "   ")) = .ok [] ∧
    parse_allowed_tools (some (.str "")) = .ok [] ∧
    parse_allowed_tools none = .ok [] := by
  refine ⟨rfl, rfl, rfl, rfl, rfl, rfl⟩

/-- C9: entering attaches the sink and starts the drain task; after any
amount of consumption (including breaking before the sentinel), exiting
detaches the sink and leaves the drain task cancelled-and-awaited; exit
always detaches, and no task survives exit still running. -/
theorem agui_stream_early_exit_cleanup (s : StreamState) (k : Nat) :
    (agui_enter s).sinkAttached = true ∧
    (agui_enter s).task = some .running ∧
    (agui_exit (agui_consume (agui_enter s) k)).sinkAttached = false ∧
    (agui_exit (agui_consume (agui_enter s) k)).task = some .wasCancelled ∧
    (∀ st : StreamState, (agui_exit st).sinkAttached = false) ∧
    (∀ st : StreamState, ∀ t, (agui_exit st).task = some t →
      t.finished = true) := by
  refine ⟨rfl, rfl, rfl, ?_, fun st => rfl, ?_⟩
  · simp [agui_exit, agui_consume, agui_enter]
  · intro st t h
    simp only [agui_exit] at h
    cases hst : st.task with
    | none => rw [hst] at h; simp at h
    | some t0 =>
        rw [hst] at h
        rw [Option.map_some'] at h
        injection h with h2
        subst h2
        cases t0 <;> decide

theorem keepResource_head (rel : List String) :
    keepResource rel = true ↔
    (relName rel == "SKILL.md" && rel.length == 1) = false ∧
    (match rel.head? with
      | some h => h == "scripts" || h == "__pycache__"
      | none => false) = false ∧
    (pySuffix (relName rel) == ".py" || pySuffix (relName rel) == ".pyc") =
      false := by
  unfold keepResource
  simp only [Bool.and_eq_true, Bool.not_eq_true', and_assoc]

theorem keepResource_iff (rel : List String) :
    keepResource rel = true ↔ claimKeep rel := by
  rw [keepResource_head]
  rcases rel with _ | ⟨a, _ | ⟨b, t⟩⟩
  · constructor
    · intro _
      unfold claimKeep relName pySuffix
      refine ⟨by simp, by simp, by simp, by decide, by decide⟩
    · intro _
      unfold relName pySuffix
      refine ⟨by decide, by decide, by decide⟩
  · have hname : relName [a] = a := rfl
    have hhead : ([a] : List String).head? = some a := rfl
    have hlen : (([a] : List String).length == 1) = true := rfl
    unfold claimKeep
    rw [hname, hhead, hlen]
    simp only [Bool.and_true, beq_eq_false_iff_ne, ne_eq, Bool.or_eq_false_iff,
      List.head?_cons, Option.some.injEq, List.cons.injEq, and_true,
      not_false_eq_true, true_and, List.cons_ne_self]
    constructor
    · rintro ⟨h1, h2, h3⟩
      exact ⟨fun hx => h1 (by simpa using hx), fun hx => h2.1 (by simpa using hx),
        fun hx => h2.2 (by simpa using hx), h3.1, h3.2⟩
    · rintro ⟨h1, h2, h3, h4, h5⟩
      exact ⟨fun hx => h1 (by simp [hx]), ⟨fun hx => h2 (by simp [hx]),
        fun hx => h3 (by simp [hx])⟩, h4, h5⟩
  · have hlen : ((a :: b :: t : List String).length == 1) = false := by
      simp [List.length_cons]
    unfold claimKeep
    rw [hlen]
    simp only [Bool.and_false, beq_eq_false_iff_ne, ne_eq, Bool.or_eq_false_iff,
      List.head?_cons, Option.some.injEq, List.cons.injEq, not_and, true_and]
    constructor
    · rintro ⟨h2, h3⟩
      exact ⟨by simp, fun hx => h2.1 (by simpa using hx),
        fun hx => h2.2 (by simpa using hx), h3.1, h3.2⟩
    · rintro ⟨h1, h2, h3, h4, h5⟩
      exact ⟨⟨fun hx => h2 (by simp [hx]), fun hx => h3 (by simp [hx])⟩, h4, h5⟩

/-- C10: discover_resources returns the sorted rendering of exactly those
regular files that are not the root SKILL.md (a SKILL.md in a subdirectory
is kept), are not under `scripts` or `__pycache__`, and do not carry the
`.py` or `.pyc` suffix anywhere in the tree; the filter the code applies
coincides with those exclusion rules. -/
theorem discover_resources_spec (files : List (List String)) :
    List.Pairwise (fun a b : String => a ≤ b) (discover_resources files) ∧
    (∀ p, p ∈ discover_resources files ↔
      ∃ rel ∈ files, claimKeep rel ∧ p = joinPath rel) ∧
    (∀ rel, keepResource rel = true ↔ claimKeep rel) := by
  refine ⟨?_, ?_, keepResource_iff⟩
  · have htrans : ∀ (a b c : String),
        (decide (a ≤ b)) = true → (decide (b ≤ c)) = true →
        (decide (a ≤ c)) = true := by
      intro a b c h1 h2
      simp only [decide_eq_true_eq] at h1 h2 ⊢
      exact le_trans h1 h2
    have htotal : ∀ (a b : String),
        ((decide (a ≤ b)) || (decide (b ≤ a))) = true := by
      intro a b
      simp only [Bool.or_eq_true, decide_eq_true_eq]
      exact le_total a b
    have hs := List.sorted_mergeSort htrans htotal
      ((files.filter keepResource).map joinPath)
    unfold discover_resources
    exact hs.imp fun h => of_decide_eq_true h
  · intro p
    unfold discover_resources
    rw [List.mem_mergeSort]
    simp only [List.mem_map, List.mem_filter]
    constructor
    · rintro ⟨rel, ⟨hmem, hkeep⟩, hjoin⟩
      exact ⟨rel, hmem, (keepResource_iff rel).mp hkeep, hjoin.symm⟩
    · rintro ⟨rel, hmem, hck, hjoin⟩
      exact ⟨rel, ⟨hmem, (keepResource_iff rel).mpr hck⟩, hjoin.symm⟩
